import Mathlib

/-!
Verification of `marketing_strategy_advisor.py`.

Shallow embedding conventions:
* JSON numbers in this program are only ever compared and looked up, so they
  are modelled as `Int`.
* A Python dict with string keys and numeric values is an insertion-ordered
  association list `List (String × Int)`; Python dicts have unique keys, so
  key-uniqueness (`List.Nodup` on the keys) is an invariant supplied as a
  hypothesis where a proof needs it.
* An HTTP call is modelled by its observable outcome `FetchOutcome`: either a
  response with a status code and a decoded JSON body, or an exception raised
  during the call.  A fetcher is then a pure function of that outcome.
* `async` functions have no concurrency-visible behaviour here (a single
  fan-out/fan-in join), so they are modelled as pure functions of the
  outcomes of their network calls.
-/

/-- Outcome of one underlying HTTP call: a response with a status code and a
decoded JSON body, or an exception raised during the call. -/
inductive FetchOutcome (α : Type) where
  | response (status : Nat) (body : α)
  | exception (msg : String)
deriving DecidableEq, Repr

/-- An HTTP call "failed" when its status is not 200 or it raised. -/
def FetchOutcome.failed {α : Type} : FetchOutcome α → Bool
  | .response status _ => status ≠ 200
  | .exception _ => true

/-- A JSON object with numeric fields: `Dict[str, float]` in the source. -/
abbrev Dict := List (String × Int)

/-- One customer segment: a JSON object such as `{"size": 9}`. -/
abbrev Segment := Dict

/-- Embeds the Python `d.get(k)`: the value at the first matching key, if
present. -/
def dictGet (d : Dict) (k : String) : Option Int :=
  (d.find? (fun p => p.1 == k)).map Prod.snd

/-- Embeds the `x.get("size", 0)` of the source: the "size" field of a
segment, missing treated as 0. -/
def segSize (s : Segment) : Int :=
  (dictGet s "size").getD 0

/-- The key function `trends.get` passed to `max` in `process_data`.  The
`getD 0` default is never exercised: the function is only applied to keys of
`trends`, where `dictGet` succeeds. -/
def trendVal (trends : Dict) (k : String) : Int :=
  (dictGet trends k).getD 0

/-- The Python `max(x :: xs, key=key)` accumulator: replaces the current best
only on a strictly greater key, so ties keep the earlier element. -/
def pyMax1 {α : Type} (key : α → Int) (x : α) (l : List α) : α :=
  l.foldl (fun acc y => if key y > key acc then y else acc) x

/-- The Python `max(l, key=key)`: `none` models the `ValueError` on an empty
iterable, which `process_data` guards against. -/
def pyMax {α : Type} (key : α → Int) : List α → Option α
  | [] => none
  | x :: xs => some (pyMax1 key x xs)

/-- The `MarketData` dataclass: `campaign_metrics` is `Optional` with default
`None`. -/
structure MarketData where
  trends : Dict
  customer_segments : List Segment
  campaign_metrics : Option Dict := none
deriving DecidableEq, Repr

/-- The insights mapping built by `process_data`. -/
structure Insights where
  top_trend : String
  target_segment : Segment
deriving DecidableEq, Repr

/-- The strategy mapping built by `generate_strategy`. -/
structure Strategy where
  type : String
  objective : String
  segments : List Segment
  trend_focus : String
deriving DecidableEq, Repr

/-- Embeds `fetch_market_trends`: returns the decoded body on status 200; on any
other status, or on any exception raised during the call, logs and returns
the empty mapping.  Totality of this function models "never raises". -/
def fetch_market_trends (out : FetchOutcome Dict) : Dict :=
  match out with
  | .response status body => if status = 200 then body else []
  | .exception _ => []

/-- Embeds `fetch_customer_behavior`: same shape as `fetch_market_trends`; its
successful body feeds `MarketData.customer_segments`, so it is typed as a
list of segments (the empty mapping and the empty list coincide as `[]`). -/
def fetch_customer_behavior (out : FetchOutcome (List Segment)) : List Segment :=
  match out with
  | .response status body => if status = 200 then body else []
  | .exception _ => []

/-- Embeds `analyze_campaign_performance`: same shape, body is a metrics
mapping. -/
def analyze_campaign_performance (out : FetchOutcome Dict) : Dict :=
  match out with
  | .response status body => if status = 200 then body else []
  | .exception _ => []

/-- One element of the positional results list built by `asyncio.gather`.
The list is heterogeneous in Python; here each position is tagged with the
type of the task that produced it. -/
inductive GatherResult where
  | trendsRes (t : Dict)
  | segsRes (s : List Segment)
  | metricsRes (m : Dict)
deriving DecidableEq, Repr

/-- The results list of `asyncio.gather(*tasks, return_exceptions=True)` over
the three fetcher tasks.  With `return_exceptions=True` a raising task would
surface as an exception object in the list, but the three fetchers catch
every exception internally, so only ordinary return values occur. -/
def asyncioGatherResults (o1 : FetchOutcome Dict) (o2 : FetchOutcome (List Segment))
    (o3 : FetchOutcome Dict) : List GatherResult :=
  [ .trendsRes (fetch_market_trends o1)
  , .segsRes (fetch_customer_behavior o2)
  , .metricsRes (analyze_campaign_performance o3) ]

/-- Embeds `gather_data`: indexes `results[0] .. results[2]` and builds `MarketData`
by keyword.  The fall-through `none` models the `except (IndexError,
KeyError)` log-and-re-raise path (out-of-range index, or a position holding
the wrong kind of value). -/
def gather_data (o1 : FetchOutcome Dict) (o2 : FetchOutcome (List Segment))
    (o3 : FetchOutcome Dict) : Option MarketData :=
  let results := asyncioGatherResults o1 o2 o3
  match results.get? 0, results.get? 1, results.get? 2 with
  | some (.trendsRes t), some (.segsRes s), some (.metricsRes m) =>
      some { trends := t, customer_segments := s, campaign_metrics := some m }
  | _, _, _ => none

/-- Embeds `process_data`: returns `None` (logging a warning) when either collection
is empty, otherwise the two `max` selections.  The final `none` arm is
unreachable: `pyMax` returns `some` on the nonempty lists reaching it. -/
def process_data (md : MarketData) : Option Insights :=
  let trends := md.trends
  let segments := md.customer_segments
  if trends.isEmpty || segments.isEmpty then
    none
  else
    match pyMax (trendVal trends) (trends.map Prod.fst), pyMax segSize segments with
    | some t, some s => some { top_trend := t, target_segment := s }
    | _, _ => none

/-- Embeds `generate_strategy`: `None` in, `None` out (with a warning); otherwise the
fixed-shape record with hardcoded type and objective. -/
def generate_strategy (insights : Option Insights) : Option Strategy :=
  match insights with
  | none => none
  | some i =>
      some { type := "targeted_campaign"
           , objective := "customer_acquisition"
           , segments := [i.target_segment]
           , trend_focus := i.top_trend }

/-- The JSON payload with "id" = campaign_id and "strategy" = strategy built
and POSTed by
`execute_strategy`. -/
structure PostRequest where
  id : String
  strategy : Strategy
deriving DecidableEq, Repr

/-- Observable result of `execute_strategy`:
* `skipped` — returned `None` without issuing any POST (absent strategy);
* `posted req resp` — the POST `req` was sent; `resp` is the decoded body on
  status 200 and `none` (the implicit `return None`) on any other status;
* `raised req msg` — the POST `req` was attempted, an exception occurred, and
  after logging the `raise` statement re-raised it to the caller. -/
inductive ExecResult where
  | skipped
  | posted (req : PostRequest) (resp : Option Dict)
  | raised (req : PostRequest) (msg : String)
deriving DecidableEq, Repr

/-- Holds (`true`) exactly when the result propagates an exception to the
caller. -/
def ExecResult.propagates : ExecResult → Bool
  | .raised _ _ => true
  | _ => false

/-- Holds (`true`) exactly when an outbound POST was issued. -/
def ExecResult.didPost : ExecResult → Bool
  | .skipped => false
  | _ => true

/-- Embeds `execute_strategy`: absent strategy short-circuits before any network
call; otherwise builds the payload, POSTs it, returns the decoded body on
status 200, falls through to `return None` on any other status, and on an
exception logs `Strategy execution failed` and re-raises (`raise`). -/
def execute_strategy (campaign_id : String) (strategy : Option Strategy)
    (out : FetchOutcome Dict) : ExecResult :=
  match strategy with
  | none => .skipped
  | some s =>
      let payload : PostRequest := { id := campaign_id, strategy := s }
      match out with
      | .response status body =>
          if status = 200 then .posted payload (some body) else .posted payload none
      | .exception msg => .raised payload msg

/-- Embeds `monitor_campaign`, fuel-indexed.  `env n` is the outcome of the HTTP
call made by the n-th iteration of `analyze_campaign_performance`; the loop
breaks exactly when the result of that call is the empty mapping, and the value
returned is the index of the breaking iteration (`none` = fuel exhausted,
i.e. no break within `fuel` iterations).

Modelled from the spec for the part cut off in the source: the loop body is
truncated right after it starts extracting the `revenue` and
`conversion_rate` fields; per the spec the monitor "polls the
campaign-analytics fetcher in an unbounded loop until it receives empty
data, with no sleep/backoff between iterations", so the remainder of the
body performs no further exit and no delay. -/
def monitor_campaign (env : Nat → FetchOutcome Dict) : Nat → Nat → Option Nat
  | 0, _ => none
  | fuel + 1, n =>
      if (analyze_campaign_performance (env n)).isEmpty then some n
      else monitor_campaign env fuel (n + 1)

/-- Largest key value over `x :: l`: the running maximum the Python `max`
tracks. -/
def foldMax {α : Type} (key : α → Int) (a : Int) (l : List α) : Int :=
  l.foldl (fun b y => max b (key y)) a

/-- Maximum of `key` over a list, `none` when the list is empty: the value
the selections of `process_data` attain. -/
def listKeyMax {α : Type} (key : α → Int) : List α → Option Int
  | [] => none
  | x :: xs => some (foldMax key (key x) xs)

/-! ## Properties of Python `max` -/

theorem pyMax1_cons {α : Type} (key : α → Int) (x y : α) (l : List α) :
    pyMax1 key x (y :: l) = pyMax1 key (if key y > key x then y else x) l := by
  simp [pyMax1, List.foldl]

theorem pyMax1_mem {α : Type} (key : α → Int) (x : α) (l : List α) :
    pyMax1 key x l ∈ x :: l := by
  induction l generalizing x with
  | nil => simp [pyMax1]
  | cons y ys ih =>
      rw [pyMax1_cons]
      by_cases h : key y > key x
      · simp only [if_pos h]
        have := ih y
        rcases List.mem_cons.mp this with h1 | h1
        · simp [h1]
        · simp [List.mem_cons, h1]
      · simp only [if_neg h]
        have := ih x
        rcases List.mem_cons.mp this with h1 | h1
        · simp [h1]
        · simp [List.mem_cons, h1]

theorem pyMax1_ge {α : Type} (key : α → Int) (x : α) (l : List α) :
    ∀ z ∈ x :: l, key z ≤ key (pyMax1 key x l) := by
  induction l generalizing x with
  | nil => intro z hz; simp at hz; simp [pyMax1, hz]
  | cons y ys ih =>
      intro z hz
      rw [pyMax1_cons]
      by_cases h : key y > key x
      · simp only [if_pos h]
        rcases List.mem_cons.mp hz with h1 | h1
        · have h2 := ih y y (List.mem_cons_self y ys)
          have h4 : key z = key x := by rw [h1]
          omega
        · exact ih y z h1
      · simp only [if_neg h]
        have h3 := ih x x (List.mem_cons_self x ys)
        rcases List.mem_cons.mp hz with h1 | h1
        · have h4 : key z = key x := by rw [h1]
          omega
        · rcases List.mem_cons.mp h1 with h2 | h2
          · have h4 : key z = key y := by rw [h2]
            omega
          · exact ih x z (List.mem_cons_of_mem x h2)

theorem foldMax_cons {α : Type} (key : α → Int) (a : Int) (y : α) (l : List α) :
    foldMax key a (y :: l) = foldMax key (max a (key y)) l := rfl

theorem le_foldMax_init {α : Type} (key : α → Int) (l : List α) :
    ∀ a : Int, a ≤ foldMax key a l := by
  induction l with
  | nil => intro a; simp [foldMax]
  | cons y ys ih =>
      intro a
      rw [foldMax_cons]
      exact le_trans (le_max_left a (key y)) (ih (max a (key y)))

theorem foldMax_ge_mem {α : Type} (key : α → Int) (l : List α) :
    ∀ (a : Int), ∀ z ∈ l, key z ≤ foldMax key a l := by
  induction l with
  | nil => intro a z hz; simp at hz
  | cons y ys ih =>
      intro a z hz
      rw [foldMax_cons]
      rcases List.mem_cons.mp hz with h1 | h1
      · have h2 : key z ≤ max a (key y) := by rw [h1]; exact le_max_right a (key y)
        exact le_trans h2 (le_foldMax_init key ys (max a (key y)))
      · exact ih (max a (key y)) z h1

/-- The Python `max` returns the first element attaining the running maximum. -/
theorem pyMax1_eq_first_max {α : Type} (key : α → Int) (x : α) (xs : List α) :
    (x :: xs).find? (fun z => key z == foldMax key (key x) xs) = some (pyMax1 key x xs) := by
  induction xs generalizing x with
  | nil => simp [pyMax1, foldMax]
  | cons y ys ih =>
      rw [pyMax1_cons]
      by_cases hxy : key y > key x
      · simp only [if_pos hxy]
        have hmax : max (key x) (key y) = key y := by omega
        have hM : foldMax key (key x) (y :: ys) = foldMax key (key y) ys := by
          rw [foldMax_cons, hmax]
        rw [hM]
        have hinit := le_foldMax_init key ys (key y)
        have hpx : ¬ ((fun z => key z == foldMax key (key y) ys) x = true) := by
          simp only [beq_iff_eq]
          omega
        rw [List.find?_cons_of_neg (p := fun z => key z == foldMax key (key y) ys)
          (a := x) _ hpx]
        exact ih y
      · simp only [if_neg hxy]
        have hmax : max (key x) (key y) = key x := by omega
        have hM : foldMax key (key x) (y :: ys) = foldMax key (key x) ys := by
          rw [foldMax_cons, hmax]
        rw [hM]
        have hIH := ih x
        by_cases hx : key x = foldMax key (key x) ys
        · have hpx : (fun z => key z == foldMax key (key x) ys) x = true := by
            simp only [beq_iff_eq]; exact hx
          rw [List.find?_cons_of_pos (p := fun z => key z == foldMax key (key x) ys)
            (a := x) _ hpx]
          rw [List.find?_cons_of_pos (p := fun z => key z == foldMax key (key x) ys)
            (a := x) _ hpx] at hIH
          exact hIH
        · have hpx : ¬ ((fun z => key z == foldMax key (key x) ys) x = true) := by
            simp only [beq_iff_eq]; exact hx
          have hxM := le_foldMax_init key ys (key x)
          have hpy : ¬ ((fun z => key z == foldMax key (key x) ys) y = true) := by
            simp only [beq_iff_eq]
            intro hyy
            omega
          rw [List.find?_cons_of_neg (p := fun z => key z == foldMax key (key x) ys)
            (a := x) _ hpx]
          rw [List.find?_cons_of_neg (p := fun z => key z == foldMax key (key x) ys)
            (a := y) _ hpy]
          rw [List.find?_cons_of_neg (p := fun z => key z == foldMax key (key x) ys)
            (a := x) _ hpx] at hIH
          exact hIH

/-! ## Dictionary lookup lemmas -/

/-- A key occurring in a dict looks up successfully, to a value paired with
it in the dict. -/
theorem dictGet_mem_keys (d : Dict) (k : String) (h : k ∈ d.map Prod.fst) :
    ∃ v, dictGet d k = some v ∧ (k, v) ∈ d := by
  induction d with
  | nil => simp at h
  | cons q qs ih =>
      by_cases hk : q.1 = k
      · refine ⟨q.2, ?_, ?_⟩
        · have hq : (fun p : String × Int => p.1 == k) q = true := by simp [hk]
          rw [dictGet, List.find?_cons_of_pos (p := fun p : String × Int => p.1 == k)
            (a := q) qs hq]
          rfl
        · have hqe : (k, q.2) = q := by
            rw [← hk]
          rw [hqe]
          exact List.mem_cons_self q qs
      · have hq : ¬ ((fun p : String × Int => p.1 == k) q = true) := by simp [hk]
        have hks : k ∈ qs.map Prod.fst := by
          rw [List.map_cons] at h
          rcases List.mem_cons.mp h with h1 | h1
          · exact absurd h1.symm hk
          · exact h1
        obtain ⟨v, hv1, hv2⟩ := ih hks
        refine ⟨v, ?_, List.mem_cons_of_mem q hv2⟩
        rw [dictGet, List.find?_cons_of_neg (p := fun p : String × Int => p.1 == k)
          (a := q) qs hq]
        exact hv1

/-- With duplicate-free keys (a Python dict invariant), every pair of the
dict is what lookup of its key returns. -/
theorem dictGet_nodup (d : Dict) (hnd : (d.map Prod.fst).Nodup) :
    ∀ p ∈ d, dictGet d p.1 = some p.2 := by
  induction d with
  | nil => intro p hp; simp at hp
  | cons q qs ih =>
      intro p hp
      have hnd2 : (qs.map Prod.fst).Nodup := (List.nodup_cons.mp (by simpa using hnd)).2
      have hq1 : q.1 ∉ qs.map Prod.fst := (List.nodup_cons.mp (by simpa using hnd)).1
      rcases List.mem_cons.mp hp with h1 | h1
      · have hq : (fun r : String × Int => r.1 == p.1) q = true := by
          rw [h1]
          simp
        rw [dictGet, List.find?_cons_of_pos (p := fun r : String × Int => r.1 == p.1)
          (a := q) qs hq]
        rw [h1]
        rfl
      · have hne : q.1 ≠ p.1 := by
          intro he
          exact hq1 (he ▸ List.mem_map_of_mem Prod.fst h1)
        have hq : ¬ ((fun r : String × Int => r.1 == p.1) q = true) := by simp [hne]
        rw [dictGet, List.find?_cons_of_neg (p := fun r : String × Int => r.1 == p.1)
          (a := q) qs hq]
        exact ih hnd2 p h1

/-- Reduces `process_data` on explicitly nonempty data: both selections
succeed. -/
theorem process_data_cons (p0 : String × Int) (ps : List (String × Int))
    (s0 : Segment) (ss : List Segment) (cm : Option Dict) :
    process_data { trends := p0 :: ps, customer_segments := s0 :: ss, campaign_metrics := cm } =
      some { top_trend := pyMax1 (trendVal (p0 :: ps)) p0.1 (ps.map Prod.fst),
             target_segment := pyMax1 segSize s0 ss } := by
  simp [process_data, pyMax]

/-! ## Fetcher and monitor lemmas -/

theorem fetch_market_trends_failed (o : FetchOutcome Dict) (h : o.failed = true) :
    fetch_market_trends o = [] := by
  cases o with
  | response status body =>
      simp only [FetchOutcome.failed, decide_eq_true_eq] at h
      simp [fetch_market_trends, h]
  | exception msg => rfl

theorem fetch_customer_behavior_failed (o : FetchOutcome (List Segment))
    (h : o.failed = true) : fetch_customer_behavior o = [] := by
  cases o with
  | response status body =>
      simp only [FetchOutcome.failed, decide_eq_true_eq] at h
      simp [fetch_customer_behavior, h]
  | exception msg => rfl

theorem analyze_campaign_performance_failed (o : FetchOutcome Dict)
    (h : o.failed = true) : analyze_campaign_performance o = [] := by
  cases o with
  | response status body =>
      simp only [FetchOutcome.failed, decide_eq_true_eq] at h
      simp [analyze_campaign_performance, h]
  | exception msg => rfl

/-- A terminating monitor run breaks at an iteration whose fetch was empty. -/
theorem monitor_campaign_exit_empty (env : Nat → FetchOutcome Dict) :
    ∀ (fuel start k : Nat), monitor_campaign env fuel start = some k →
      (analyze_campaign_performance (env k)).isEmpty = true := by
  intro fuel
  induction fuel with
  | zero => intro start k h; simp [monitor_campaign] at h
  | succ f ih =>
      intro start k h
      simp only [monitor_campaign] at h
      by_cases hm : (analyze_campaign_performance (env start)).isEmpty = true
      · rw [if_pos hm] at h
        rw [← Option.some.inj h]
        exact hm
      · rw [if_neg hm] at h
        exact ih (start + 1) k h

/-- Every iteration strictly before the breaking one saw nonempty metrics. -/
theorem monitor_campaign_exit_first (env : Nat → FetchOutcome Dict) :
    ∀ (fuel start k : Nat), monitor_campaign env fuel start = some k →
      start ≤ k ∧ ∀ j, start ≤ j → j < k →
        (analyze_campaign_performance (env j)).isEmpty = false := by
  intro fuel
  induction fuel with
  | zero => intro start k h; simp [monitor_campaign] at h
  | succ f ih =>
      intro start k h
      simp only [monitor_campaign] at h
      by_cases hm : (analyze_campaign_performance (env start)).isEmpty = true
      · rw [if_pos hm] at h
        have hk := Option.some.inj h
        constructor
        · omega
        · intro j hj1 hj2
          omega
      · rw [if_neg hm] at h
        obtain ⟨hle, hall⟩ := ih (start + 1) k h
        refine ⟨by omega, ?_⟩
        intro j hj1 hj2
        by_cases hjs : j = start
        · rw [hjs]
          simpa using hm
        · exact hall j (by omega) hj2

/-- Enough fuel to reach an empty fetch makes the monitor break. -/
theorem monitor_campaign_reaches (env : Nat → FetchOutcome Dict) :
    ∀ (fuel start : Nat),
      (∃ n, start ≤ n ∧ n < start + fuel ∧
        (analyze_campaign_performance (env n)).isEmpty = true) →
      ∃ k, monitor_campaign env fuel start = some k := by
  intro fuel
  induction fuel with
  | zero =>
      intro start h
      obtain ⟨n, h1, h2, _⟩ := h
      omega
  | succ f ih =>
      intro start h
      obtain ⟨n, h1, h2, h3⟩ := h
      simp only [monitor_campaign]
      by_cases hm : (analyze_campaign_performance (env start)).isEmpty = true
      · exact ⟨start, by rw [if_pos hm]⟩
      · rw [if_neg hm]
        apply ih (start + 1)
        have hne : n ≠ start := by
          intro he
          rw [he] at h3
          exact hm h3
        exact ⟨n, by omega, by omega, h3⟩

/-- Reduces `process_data` through equations for its two collections. -/
theorem process_data_eq (md : MarketData) (p0 : String × Int)
    (ps : List (String × Int)) (s0 : Segment) (ss : List Segment)
    (htr : md.trends = p0 :: ps) (hsg : md.customer_segments = s0 :: ss) :
    process_data md =
      some { top_trend := pyMax1 (trendVal (p0 :: ps)) p0.1 (ps.map Prod.fst),
             target_segment := pyMax1 segSize s0 ss } := by
  simp [process_data, htr, hsg, pyMax]

/-! ## Claims -/

/-- C1: for every fetcher (`fetch_market_trends`, `fetch_customer_behavior`,
`analyze_campaign_performance`) and every outcome of the underlying HTTP
call, if the response status is not 200 or the call raises any exception,
the fetcher returns the empty mapping; the fetchers are total functions of
the call outcome, so no exception propagates to the caller. -/
theorem fetchers_return_empty_on_failure
    (o1 : FetchOutcome Dict) (o2 : FetchOutcome (List Segment))
    (o3 : FetchOutcome Dict)
    (h1 : o1.failed = true) (h2 : o2.failed = true) (h3 : o3.failed = true) :
    fetch_market_trends o1 = [] ∧ fetch_customer_behavior o2 = [] ∧
      analyze_campaign_performance o3 = [] :=
  ⟨fetch_market_trends_failed o1 h1, fetch_customer_behavior_failed o2 h2,
    analyze_campaign_performance_failed o3 h3⟩

/-- C1 witness: a 500 response, a raised exception and a 404 response all
yield the empty mapping. -/
theorem fetchers_return_empty_on_failure_witness :
    (FetchOutcome.response 500 ([("x", 1)] : Dict)).failed = true ∧
    (FetchOutcome.exception "timed out" : FetchOutcome (List Segment)).failed = true ∧
    (FetchOutcome.response 404 ([("y", 2)] : Dict)).failed = true ∧
    (fetch_market_trends (.response 500 [("x", 1)]) = [] ∧
     fetch_customer_behavior (.exception "timed out") = [] ∧
     analyze_campaign_performance (.response 404 [("y", 2)]) = []) :=
  ⟨by decide, rfl, by decide,
    fetchers_return_empty_on_failure _ _ _ (by decide) rfl (by decide)⟩

/-- C2: for every `MarketData` with nonempty trends and nonempty segments
(and duplicate-free trend keys, a dict invariant), `process_data` returns
insights whose `top_trend` is a key of the trends mapping carrying a maximal
value. -/
theorem process_data_top_trend_argmax (md : MarketData)
    (h1 : md.trends ≠ []) (h2 : md.customer_segments ≠ [])
    (h3 : (md.trends.map Prod.fst).Nodup) :
    ∃ i, process_data md = some i ∧
      ∃ v, (i.top_trend, v) ∈ md.trends ∧ ∀ p ∈ md.trends, p.2 ≤ v := by
  obtain ⟨p0, ps, htr⟩ := List.exists_cons_of_ne_nil h1
  obtain ⟨s0, ss, hsg⟩ := List.exists_cons_of_ne_nil h2
  rw [htr] at h3
  refine ⟨_, process_data_eq md p0 ps s0 ss htr hsg, ?_⟩
  rw [htr]
  dsimp only
  have htmem : pyMax1 (trendVal (p0 :: ps)) p0.1 (ps.map Prod.fst) ∈
      (p0 :: ps).map Prod.fst := by
    rw [List.map_cons]
    exact pyMax1_mem (trendVal (p0 :: ps)) p0.1 (ps.map Prod.fst)
  obtain ⟨v, hget, hmem⟩ := dictGet_mem_keys (p0 :: ps) _ htmem
  refine ⟨v, hmem, ?_⟩
  intro p hp
  have hkmem : p.1 ∈ p0.1 :: ps.map Prod.fst := by
    rw [← List.map_cons]
    exact List.mem_map_of_mem Prod.fst hp
  have hge := pyMax1_ge (trendVal (p0 :: ps)) p0.1 (ps.map Prod.fst) p.1 hkmem
  have hpv : trendVal (p0 :: ps) p.1 = p.2 := by
    rw [trendVal, dictGet_nodup (p0 :: ps) h3 p hp]
    rfl
  have htv : trendVal (p0 :: ps)
      (pyMax1 (trendVal (p0 :: ps)) p0.1 (ps.map Prod.fst)) = v := by
    rw [trendVal, hget]
    rfl
  omega

/-- C2 witness: on trends a=1, b=5, c=3 the selected top trend is b with
value 5, maximal. -/
theorem process_data_top_trend_argmax_witness :
    ((MarketData.mk [("a", 1), ("b", 5), ("c", 3)] [[("size", 2)]] none).trends ≠ [] ∧
     (MarketData.mk [("a", 1), ("b", 5), ("c", 3)] [[("size", 2)]] none).customer_segments ≠ [] ∧
     ((MarketData.mk [("a", 1), ("b", 5), ("c", 3)] [[("size", 2)]] none).trends.map Prod.fst).Nodup) ∧
    (∃ i, process_data (MarketData.mk [("a", 1), ("b", 5), ("c", 3)] [[("size", 2)]] none) = some i ∧
      ∃ v, (i.top_trend, v) ∈ (MarketData.mk [("a", 1), ("b", 5), ("c", 3)] [[("size", 2)]] none).trends ∧
        ∀ p ∈ (MarketData.mk [("a", 1), ("b", 5), ("c", 3)] [[("size", 2)]] none).trends, p.2 ≤ v) ∧
    (process_data (MarketData.mk [("a", 1), ("b", 5), ("c", 3)] [[("size", 2)]] none)).map
      Insights.top_trend = some "b" :=
  ⟨⟨by decide, by decide, by decide⟩,
   process_data_top_trend_argmax _ (by decide) (by decide) (by decide),
   by decide⟩

/-- C3: for every `MarketData` with nonempty trends and nonempty segments,
`process_data` returns insights whose `target_segment` is an element of the
segments list with maximal "size" field, a missing "size" scored as 0. -/
theorem process_data_target_segment_argmax (md : MarketData)
    (h1 : md.trends ≠ []) (h2 : md.customer_segments ≠ []) :
    ∃ i, process_data md = some i ∧
      i.target_segment ∈ md.customer_segments ∧
      ∀ s ∈ md.customer_segments, segSize s ≤ segSize i.target_segment := by
  obtain ⟨p0, ps, htr⟩ := List.exists_cons_of_ne_nil h1
  obtain ⟨s0, ss, hsg⟩ := List.exists_cons_of_ne_nil h2
  refine ⟨_, process_data_eq md p0 ps s0 ss htr hsg, ?_, ?_⟩
  · rw [hsg]
    dsimp only
    exact pyMax1_mem segSize s0 ss
  · rw [hsg]
    dsimp only
    intro s hs
    exact pyMax1_ge segSize s0 ss s hs

/-- C3 witness: on segments of sizes 2, 9, 1 the selected target segment is
the one of size 9. -/
theorem process_data_target_segment_argmax_witness :
    ((MarketData.mk [("a", 1)] [[("size", 2)], [("size", 9)], [("size", 1)]] none).trends ≠ [] ∧
     (MarketData.mk [("a", 1)] [[("size", 2)], [("size", 9)], [("size", 1)]] none).customer_segments ≠ []) ∧
    (∃ i, process_data (MarketData.mk [("a", 1)] [[("size", 2)], [("size", 9)], [("size", 1)]] none) = some i ∧
      i.target_segment ∈ (MarketData.mk [("a", 1)] [[("size", 2)], [("size", 9)], [("size", 1)]] none).customer_segments ∧
      ∀ s ∈ (MarketData.mk [("a", 1)] [[("size", 2)], [("size", 9)], [("size", 1)]] none).customer_segments,
        segSize s ≤ segSize i.target_segment) ∧
    (process_data (MarketData.mk [("a", 1)] [[("size", 2)], [("size", 9)], [("size", 1)]] none)).map
      Insights.target_segment = some [("size", 9)] :=
  ⟨⟨by decide, by decide⟩,
   process_data_target_segment_argmax _ (by decide) (by decide),
   by decide⟩

/-- C4: with empty trends or empty segments `process_data` returns `None`,
feeding that absence onward makes `generate_strategy` return `None`, and the
executor then short-circuits: no strategy is produced and no outbound POST
occurs. -/
theorem empty_data_short_circuits_pipeline (md : MarketData) (cid : String)
    (out : FetchOutcome Dict)
    (h : md.trends = [] ∨ md.customer_segments = []) :
    process_data md = none ∧
    generate_strategy (process_data md) = none ∧
    execute_strategy cid (generate_strategy (process_data md)) out = ExecResult.skipped ∧
    (execute_strategy cid (generate_strategy (process_data md)) out).didPost = false := by
  have hp : process_data md = none := by
    rcases h with h | h <;> simp [process_data, h]
  rw [hp]
  exact ⟨rfl, rfl, rfl, rfl⟩

/-- C4 witness: one fetcher returning empty data (empty trends) skips
strategy generation and execution, with no POST. -/
theorem empty_data_short_circuits_pipeline_witness :
    (MarketData.mk [] [[("size", 1)]] none).trends = [] ∧
    (process_data (MarketData.mk [] [[("size", 1)]] none) = none ∧
     generate_strategy (process_data (MarketData.mk [] [[("size", 1)]] none)) = none ∧
     execute_strategy "c7" (generate_strategy (process_data (MarketData.mk [] [[("size", 1)]] none)))
       (.response 200 [("ok", 1)]) = ExecResult.skipped ∧
     (execute_strategy "c7" (generate_strategy (process_data (MarketData.mk [] [[("size", 1)]] none)))
       (.response 200 [("ok", 1)])).didPost = false) :=
  ⟨rfl, empty_data_short_circuits_pipeline _ "c7" _ (Or.inl rfl)⟩

/-- C5: for every non-absent insights record, `generate_strategy` returns
exactly the fixed-shape record with type "targeted_campaign", objective
"customer_acquisition", segments = [target_segment] and trend_focus =
top_trend; in particular it does so for top_trend "b" and target_segment of
size 9. -/
theorem generate_strategy_fixed_record :
    (∀ i : Insights, generate_strategy (some i) =
      some { type := "targeted_campaign", objective := "customer_acquisition",
             segments := [i.target_segment], trend_focus := i.top_trend }) ∧
    generate_strategy (some { top_trend := "b", target_segment := [("size", 9)] }) =
      some { type := "targeted_campaign", objective := "customer_acquisition",
             segments := [[("size", 9)]], trend_focus := "b" } :=
  ⟨fun _ => rfl, rfl⟩

/-- C6 counterexample: with a strategy present and the POST raising an
exception, `execute_strategy` propagates the exception to its caller
(the source logs and then re-raises), contradicting "no propagated
exception". -/
theorem execute_strategy_exception_propagates :
    (execute_strategy "c1"
      (some { type := "targeted_campaign", objective := "customer_acquisition",
              segments := [[("size", 9)]], trend_focus := "b" })
      (.exception "connection reset")).propagates = true := rfl

/-- C6 (amended): for every non-absent strategy `execute_strategy` builds
the payload of campaign id and strategy and POSTs it; it returns the decoded
body on status 200 and returns nothing on any other status, but on an
exception during the call it logs and re-raises rather than returning. -/
theorem execute_strategy_behavior (cid : String) (s : Strategy) :
    (∀ status body, execute_strategy cid (some s) (.response status body) =
        .posted { id := cid, strategy := s }
          (if status = 200 then some body else none)) ∧
    (∀ msg, execute_strategy cid (some s) (.exception msg) =
        .raised { id := cid, strategy := s } msg) := by
  constructor
  · intro status body
    by_cases h : status = 200 <;> simp [execute_strategy, h]
  · intro msg
    rfl

/-- C7: when all three fetchers fail, `gather_data` still returns a
`MarketData` record whose three fields are all empty (the metrics field
holds the empty mapping), and does not raise (the `some` result is the
non-raising path). -/
theorem gather_data_all_failed_empty (o1 : FetchOutcome Dict)
    (o2 : FetchOutcome (List Segment)) (o3 : FetchOutcome Dict)
    (h1 : o1.failed = true) (h2 : o2.failed = true) (h3 : o3.failed = true) :
    gather_data o1 o2 o3 =
      some { trends := [], customer_segments := [], campaign_metrics := some [] } := by
  have e1 := fetch_market_trends_failed o1 h1
  have e2 := fetch_customer_behavior_failed o2 h2
  have e3 := analyze_campaign_performance_failed o3 h3
  simp [gather_data, asyncioGatherResults, e1, e2, e3]

/-- C7 witness: a 503 response, a raised exception and a 500 response in the
three positions produce the all-empty record. -/
theorem gather_data_all_failed_empty_witness :
    (FetchOutcome.response 503 ([("x", 1)] : Dict)).failed = true ∧
    (FetchOutcome.exception "refused" : FetchOutcome (List Segment)).failed = true ∧
    (FetchOutcome.response 500 ([("z", 3)] : Dict)).failed = true ∧
    gather_data (.response 503 [("x", 1)]) (.exception "refused") (.response 500 [("z", 3)]) =
      some { trends := [], customer_segments := [], campaign_metrics := some [] } :=
  ⟨by decide, rfl, by decide,
    gather_data_all_failed_empty _ _ _ (by decide) rfl (by decide)⟩

/-- C8: on ties `process_data` selects first occurrences: `top_trend` is the
first key in iteration order whose value attains the maximum trend value,
and `target_segment` is the first element attaining the maximum size. -/
theorem process_data_tie_break_first (md : MarketData)
    (h1 : md.trends ≠ []) (h2 : md.customer_segments ≠ []) :
    ∃ i M N, process_data md = some i ∧
      listKeyMax (trendVal md.trends) (md.trends.map Prod.fst) = some M ∧
      (md.trends.map Prod.fst).find? (fun k => trendVal md.trends k == M) =
        some i.top_trend ∧
      listKeyMax segSize md.customer_segments = some N ∧
      md.customer_segments.find? (fun s => segSize s == N) = some i.target_segment := by
  obtain ⟨p0, ps, htr⟩ := List.exists_cons_of_ne_nil h1
  obtain ⟨s0, ss, hsg⟩ := List.exists_cons_of_ne_nil h2
  refine ⟨_, foldMax (trendVal (p0 :: ps)) (trendVal (p0 :: ps) p0.1) (ps.map Prod.fst),
          foldMax segSize (segSize s0) ss,
          process_data_eq md p0 ps s0 ss htr hsg, ?_, ?_, ?_, ?_⟩
  · rw [htr, List.map_cons]
    rfl
  · rw [htr, List.map_cons]
    dsimp only
    exact pyMax1_eq_first_max (trendVal (p0 :: ps)) p0.1 (ps.map Prod.fst)
  · rw [hsg]
    rfl
  · rw [hsg]
    dsimp only
    exact pyMax1_eq_first_max segSize s0 ss

/-- C8 witness: trends a=5, b=5 (tied) select a, the first; segments of
sizes 7, 7, 3 (tied) select the first size-7 element. -/
theorem process_data_tie_break_first_witness :
    ((MarketData.mk [("a", 5), ("b", 5)] [[("size", 7), ("k", 1)], [("size", 7)], [("size", 3)]] none).trends ≠ [] ∧
     (MarketData.mk [("a", 5), ("b", 5)] [[("size", 7), ("k", 1)], [("size", 7)], [("size", 3)]] none).customer_segments ≠ []) ∧
    (∃ i M N, process_data (MarketData.mk [("a", 5), ("b", 5)] [[("size", 7), ("k", 1)], [("size", 7)], [("size", 3)]] none) = some i ∧
      listKeyMax (trendVal (MarketData.mk [("a", 5), ("b", 5)] [[("size", 7), ("k", 1)], [("size", 7)], [("size", 3)]] none).trends)
        ((MarketData.mk [("a", 5), ("b", 5)] [[("size", 7), ("k", 1)], [("size", 7)], [("size", 3)]] none).trends.map Prod.fst) = some M ∧
      ((MarketData.mk [("a", 5), ("b", 5)] [[("size", 7), ("k", 1)], [("size", 7)], [("size", 3)]] none).trends.map Prod.fst).find?
        (fun k => trendVal (MarketData.mk [("a", 5), ("b", 5)] [[("size", 7), ("k", 1)], [("size", 7)], [("size", 3)]] none).trends k == M) = some i.top_trend ∧
      listKeyMax segSize (MarketData.mk [("a", 5), ("b", 5)] [[("size", 7), ("k", 1)], [("size", 7)], [("size", 3)]] none).customer_segments = some N ∧
      (MarketData.mk [("a", 5), ("b", 5)] [[("size", 7), ("k", 1)], [("size", 7)], [("size", 3)]] none).customer_segments.find?
        (fun s => segSize s == N) = some i.target_segment) ∧
    process_data (MarketData.mk [("a", 5), ("b", 5)] [[("size", 7), ("k", 1)], [("size", 7)], [("size", 3)]] none) =
      some { top_trend := "a", target_segment := [("size", 7), ("k", 1)] } :=
  ⟨⟨by decide, by decide⟩,
   process_data_tie_break_first _ (by decide) (by decide),
   by decide⟩

/-- C9: modelling the truncated tail of the loop body from the spec (no
sleep, no other exit), the monitor loop terminates if and only if some
iteration fetch returns empty metrics; moreover a terminating run breaks at
an iteration whose fetch was empty while every earlier iteration saw
nonempty metrics. -/
theorem monitor_campaign_terminates_iff (env : Nat → FetchOutcome Dict) :
    ((∃ fuel k, monitor_campaign env fuel 0 = some k) ↔
      ∃ n, (analyze_campaign_performance (env n)).isEmpty = true) ∧
    (∀ fuel k, monitor_campaign env fuel 0 = some k →
      (analyze_campaign_performance (env k)).isEmpty = true ∧
      ∀ j, j < k → (analyze_campaign_performance (env j)).isEmpty = false) := by
  constructor
  · constructor
    · rintro ⟨fuel, k, h⟩
      exact ⟨k, monitor_campaign_exit_empty env fuel 0 k h⟩
    · rintro ⟨n, hn⟩
      obtain ⟨k, hk⟩ := monitor_campaign_reaches env (n + 1) 0 ⟨n, by omega, by omega, hn⟩
      exact ⟨n + 1, k, hk⟩
  · intro fuel k h
    refine ⟨monitor_campaign_exit_empty env fuel 0 k h, ?_⟩
    intro j hj
    exact (monitor_campaign_exit_first env fuel 0 k h).2 j (by omega) hj

/-- C9 witness: with the fetch empty for the first time at iteration 2, the
loop terminates, via the theorem applied to that environment. -/
theorem monitor_campaign_terminates_iff_witness :
    ∃ n, (analyze_campaign_performance
      ((fun j => if j = 2 then FetchOutcome.response 200 ([] : Dict)
                 else FetchOutcome.response 200 [("revenue", 5)]) n)).isEmpty = true :=
  (monitor_campaign_terminates_iff
    (fun j => if j = 2 then FetchOutcome.response 200 ([] : Dict)
              else FetchOutcome.response 200 [("revenue", 5)])).1.mp
    ⟨3, 2, by decide⟩

/-- C10: the gathered results list always has exactly three elements, and
building `MarketData` from positions 0, 1, 2 always succeeds, so the
key/index-error log-and-re-raise branch of `gather_data` is unreachable. -/
theorem gather_data_total_three (o1 : FetchOutcome Dict)
    (o2 : FetchOutcome (List Segment)) (o3 : FetchOutcome Dict) :
    (asyncioGatherResults o1 o2 o3).length = 3 ∧
    gather_data o1 o2 o3 =
      some { trends := fetch_market_trends o1
           , customer_segments := fetch_customer_behavior o2
           , campaign_metrics := some (analyze_campaign_performance o3) } :=
  ⟨rfl, rfl⟩
